import Mathlib

/-!
Shallow embedding of the account persistence and transaction engine of
白云信用社 5.6.2 (`src/白云信用社_5.6.2.py`).

Conventions of the embedding:
* Python `float` amounts are modelled as exact rationals (`ℚ`).
* The wall clock (`datetime.now()`) is passed explicitly as the strings the
  source derives from it: `now.date().isoformat()` and
  `now.strftime("%Y-%m-%d %H:%M:%S")`.
* The UI methods `deposit` / `withdraw` / `set_new_target` return early,
  before the first assignment to `self.bank_data`, on every validation
  failure; the pure embedding returns `Except.error` there, so "no state
  change on failure" is captured by construction.
-/

/-- The `SavingMode` enum of the source (`class SavingMode(Enum)`). -/
inductive SavingMode where
  | ACCUMULATE : SavingMode
  | PER_TARGET : SavingMode
deriving DecidableEq, Repr

/-- One entry of `deposit_history`: the dict
`{"date": ..., "amount": ..., "remaining": ...}` appended by the source. -/
structure HistoryEntry where
  date : String
  amount : ℚ
  remaining : ℚ
deriving DecidableEq, Repr

/-- The in-memory account record (the `SavingsData` TypedDict). -/
structure SavingsData where
  target : ℚ
  current_saved : ℚ
  total_deposits : ℤ
  deposit_dates : List String
  deposit_history : List HistoryEntry
  saving_mode : SavingMode
deriving DecidableEq, Repr

/-- The function `initialize_data()`: the fresh empty default record. -/
def initialize_data : SavingsData :=
  { target := 0
    current_saved := 0
    total_deposits := 0
    deposit_dates := []
    deposit_history := []
    saving_mode := SavingMode.ACCUMULATE }

/-- The transaction-validation failures of the engine (each corresponds to
one early-return `messagebox.showwarning` branch of the source). -/
inductive TxError where
  | InvalidAmount : TxError
  | TargetExceeded : TxError
  | InsufficientFunds : TxError
deriving DecidableEq, Repr

/-- Method `PiggyBankApp.deposit`, lines 2138-2189 of the source, as a pure
transformation of the record.  `dateOnly` is `now.date().isoformat()` and
`dtFull` is `now.strftime(DATETIME_FORMAT)`. -/
def deposit (d : SavingsData) (amount : ℚ) (dateOnly dtFull : String) :
    Except TxError SavingsData :=
  if amount ≤ 0 then .error .InvalidAmount
  else if 0 < d.target ∧ d.target < d.current_saved + amount then
    .error .TargetExceeded
  else
    .ok { d with
      current_saved := d.current_saved + amount
      total_deposits := d.total_deposits + 1
      deposit_dates :=
        if dateOnly ∈ d.deposit_dates then d.deposit_dates
        else d.deposit_dates ++ [dateOnly]
      deposit_history := d.deposit_history ++
        [{ date := dtFull, amount := amount,
           remaining := d.target - (d.current_saved + amount) }] }

/-- Method `PiggyBankApp.withdraw`, lines 2191-2236: the source negates the amount
(`amount = -abs(amount)`) and rejects when the new balance would be
negative. -/
def withdraw (d : SavingsData) (amount : ℚ) (dtFull : String) :
    Except TxError SavingsData :=
  if amount ≤ 0 then .error .InvalidAmount
  else if d.current_saved + -|amount| < 0 then .error .InsufficientFunds
  else
    .ok { d with
      current_saved := d.current_saved + -|amount|
      deposit_history := d.deposit_history ++
        [{ date := dtFull, amount := -|amount|,
           remaining := d.target - (d.current_saved + -|amount|) }] }

/-- Method `PiggyBankApp.set_new_target`, lines 2238-2271: in PER_TARGET mode the
record is first replaced by `initialize_data()` and only then the new target
and the PER_TARGET mode are written back. -/
def set_new_target (d : SavingsData) (newTarget : ℚ) :
    Except TxError SavingsData :=
  if newTarget ≤ 0 then .error .InvalidAmount
  else if d.saving_mode = SavingMode.PER_TARGET then
    .ok { initialize_data with target := newTarget, saving_mode := SavingMode.PER_TARGET }
  else .ok { d with target := newTarget }

/-- Method `PiggyBankApp.set_saving_mode`, lines 2273-2291: a pure field write. -/
def set_saving_mode (d : SavingsData) (m : SavingMode) : SavingsData :=
  { d with saving_mode := m }

/-- Method `PiggyBankApp.reset_progress`, lines 2293-2307: the record is replaced by
`initialize_data()`. -/
def reset_progress (_d : SavingsData) : SavingsData := initialize_data

/-- The record invariants claimed in §3 of the spec: a non-negative balance,
and in ACCUMULATE mode either no target or a balance within the target. -/
def recordInv (d : SavingsData) : Prop :=
  0 ≤ d.current_saved ∧
    (d.saving_mode = SavingMode.ACCUMULATE →
      d.target = 0 ∨ d.current_saved ≤ d.target)

instance (d : SavingsData) : Decidable (recordInv d) := by
  unfold recordInv; infer_instance

instance {ε α : Type _} [DecidableEq ε] [DecidableEq α] : DecidableEq (Except ε α) :=
  fun a b =>
    match a, b with
    | .error e, .error f =>
      if h : e = f then isTrue (by rw [h]) else
        isFalse (fun hh => h (Except.error.injEq e f ▸ hh))
    | .ok x, .ok y =>
      if h : x = y then isTrue (by rw [h]) else
        isFalse (fun hh => h (Except.ok.injEq x y ▸ hh))
    | .error _, .ok _ => isFalse (fun hh => Except.noConfusion hh)
    | .ok _, .error _ => isFalse (fun hh => Except.noConfusion hh)

/-- C1: deposit rejects `amount ≤ 0` with `InvalidAmount`; for positive
amounts it rejects with `TargetExceeded` exactly when `target > 0` and
`currentSaved + amount > target` (the record is untouched on failure, by
construction of the pure embedding); on success it adds the amount to
`currentSaved`, increments `totalDeposits` by one, adds `dateOnly` to
`depositDates` when absent, and appends exactly one ledger entry carrying
the positive amount and `remainingAfter = target - newBalance`. -/
theorem C1_deposit_spec (d : SavingsData) (amount : ℚ) (dateOnly dtFull : String) :
    (amount ≤ 0 → deposit d amount dateOnly dtFull = .error .InvalidAmount) ∧
    (0 < amount →
      (deposit d amount dateOnly dtFull = .error .TargetExceeded ↔
        0 < d.target ∧ d.target < d.current_saved + amount)) ∧
    (∀ d', deposit d amount dateOnly dtFull = .ok d' →
      d'.current_saved = d.current_saved + amount ∧
      d'.total_deposits = d.total_deposits + 1 ∧
      d'.target = d.target ∧
      d'.saving_mode = d.saving_mode ∧
      d'.deposit_dates =
        (if dateOnly ∈ d.deposit_dates then d.deposit_dates
         else d.deposit_dates ++ [dateOnly]) ∧
      d'.deposit_history = d.deposit_history ++
        [{ date := dtFull, amount := amount,
           remaining := d.target - (d.current_saved + amount) }] ∧
      0 < amount) := by
  refine ⟨fun hle => ?_, fun hpos => ?_, fun d' h => ?_⟩
  · unfold deposit; rw [if_pos hle]
  · unfold deposit
    rw [if_neg (not_le.mpr hpos)]
    by_cases hc : 0 < d.target ∧ d.target < d.current_saved + amount
    · rw [if_pos hc]
      exact ⟨fun _ => hc, fun _ => rfl⟩
    · rw [if_neg hc]
      exact ⟨fun h => Except.noConfusion h, fun hcc => absurd hcc hc⟩
  · unfold deposit at h
    by_cases h1 : amount ≤ 0
    · rw [if_pos h1] at h; cases h
    rw [if_neg h1] at h
    by_cases h2 : 0 < d.target ∧ d.target < d.current_saved + amount
    · rw [if_pos h2] at h; cases h
    rw [if_neg h2] at h
    cases h
    exact ⟨rfl, rfl, rfl, rfl, rfl, rfl, lt_of_not_le h1⟩

/-- A record with target 10 and balance 8, used in witnesses. -/
def nearTargetRec : SavingsData :=
  { initialize_data with
    target := 10
    current_saved := 8 }

/-- The record produced by a first deposit of 5 on 2026-10-12. -/
def afterDep5Rec : SavingsData :=
  { initialize_data with
    current_saved := 5
    total_deposits := 1
    deposit_dates := ["2026-10-12"]
    deposit_history := [{ date := "2026-10-12 09:00:00", amount := 5, remaining := -5 }] }

theorem C1_deposit_spec_witness :
    deposit initialize_data (-1) "2026-10-12" "2026-10-12 09:00:00" = .error .InvalidAmount ∧
    (deposit nearTargetRec 5 "2026-10-12" "2026-10-12 09:00:00" = .error .TargetExceeded ↔
      0 < nearTargetRec.target ∧
        nearTargetRec.target < nearTargetRec.current_saved + 5) ∧
    afterDep5Rec.current_saved = (0 : ℚ) + 5 := by
  have hdep : deposit initialize_data 5 "2026-10-12" "2026-10-12 09:00:00" =
      .ok afterDep5Rec := by
    norm_num [deposit, initialize_data, afterDep5Rec]
  refine ⟨(C1_deposit_spec initialize_data (-1) "2026-10-12" "2026-10-12 09:00:00").1
      (by norm_num),
    (C1_deposit_spec nearTargetRec 5 "2026-10-12" "2026-10-12 09:00:00").2.1 (by norm_num),
    ((C1_deposit_spec initialize_data 5 "2026-10-12" "2026-10-12 09:00:00").2.2 _ hdep).1⟩

/-- C2: for positive amounts, withdraw fails with `InsufficientFunds`
exactly when the amount exceeds the balance (no state change on failure, by
construction); on success the balance drops by the amount, `totalDeposits`
is unchanged, and exactly one ledger entry is appended carrying the signed
negative amount and `remainingAfter = target - newBalance`. -/
theorem C2_withdraw_spec (d : SavingsData) (amount : ℚ) (dtFull : String)
    (hpos : 0 < amount) :
    (withdraw d amount dtFull = .error .InsufficientFunds ↔
      d.current_saved < amount) ∧
    (∀ d', withdraw d amount dtFull = .ok d' →
      d'.current_saved = d.current_saved - amount ∧
      d'.total_deposits = d.total_deposits ∧
      d'.target = d.target ∧
      d'.saving_mode = d.saving_mode ∧
      d'.deposit_dates = d.deposit_dates ∧
      d'.deposit_history = d.deposit_history ++
        [{ date := dtFull, amount := -amount,
           remaining := d.target - (d.current_saved - amount) }]) := by
  have habs : |amount| = amount := abs_of_pos hpos
  constructor
  · unfold withdraw
    rw [if_neg (not_le.mpr hpos)]
    by_cases h : d.current_saved + -|amount| < 0
    · rw [if_pos h]
      rw [habs] at h
      exact ⟨fun _ => by linarith, fun _ => rfl⟩
    · rw [if_neg h]
      rw [habs] at h
      exact ⟨fun hh => Except.noConfusion hh, fun hc => absurd (by linarith) h⟩
  · intro d' h
    unfold withdraw at h
    rw [if_neg (not_le.mpr hpos)] at h
    by_cases h2 : d.current_saved + -|amount| < 0
    · rw [if_pos h2] at h; cases h
    rw [if_neg h2] at h
    cases h
    have key : d.current_saved + -|amount| = d.current_saved - amount := by
      rw [habs]; exact (sub_eq_add_neg _ _).symm
    refine ⟨by dsimp only; rw [key], rfl, rfl, rfl, rfl, ?_⟩
    dsimp only
    rw [key, habs]

/-- A record with balance 3, used in witnesses. -/
def smallBalanceRec : SavingsData :=
  { initialize_data with current_saved := 3 }

/-- A record with balance 10, used in witnesses. -/
def tenBalanceRec : SavingsData :=
  { initialize_data with current_saved := 10 }

/-- The record produced by withdrawing 3 from `tenBalanceRec`. -/
def afterWd3Rec : SavingsData :=
  { initialize_data with
    current_saved := 7
    deposit_history := [{ date := "2026-10-12 09:00:00", amount := -3, remaining := -7 }] }

theorem C2_withdraw_spec_witness :
    (withdraw smallBalanceRec 5 "2026-10-12 09:00:00" =
        .error .InsufficientFunds ↔ smallBalanceRec.current_saved < 5) ∧
    afterWd3Rec.current_saved = (10 : ℚ) - 3 := by
  have hwd : withdraw tenBalanceRec 3 "2026-10-12 09:00:00" = .ok afterWd3Rec := by
    norm_num [withdraw, tenBalanceRec, initialize_data, afterWd3Rec, abs_of_pos]
  refine ⟨(C2_withdraw_spec smallBalanceRec 5 "2026-10-12 09:00:00" (by norm_num)).1,
    ((C2_withdraw_spec tenBalanceRec 3 "2026-10-12 09:00:00" (by norm_num)).2 _ hwd).1⟩

/-- A fresh PER_TARGET record with the given target: the result of a
PER_TARGET `set_new_target`. -/
def freshPerTarget (t : ℚ) : SavingsData :=
  { initialize_data with
    target := t
    saving_mode := SavingMode.PER_TARGET }

/-- C3: `set_new_target` rejects `newTarget ≤ 0` with `InvalidAmount`; in
PER_TARGET mode the record is reset to the default and only then the new
target and the PER_TARGET mode are applied, discarding balance and ledger;
in ACCUMULATE mode only the target field is replaced. -/
theorem C3_set_new_target_spec (d : SavingsData) (newTarget : ℚ) :
    (newTarget ≤ 0 → set_new_target d newTarget = .error .InvalidAmount) ∧
    (0 < newTarget → d.saving_mode = SavingMode.PER_TARGET →
      set_new_target d newTarget = .ok (freshPerTarget newTarget)) ∧
    (0 < newTarget → d.saving_mode = SavingMode.ACCUMULATE →
      set_new_target d newTarget = .ok { d with target := newTarget }) := by
  unfold set_new_target
  refine ⟨fun hle => by rw [if_pos hle], fun hpos hm => ?_, fun hpos hm => ?_⟩
  · rw [if_neg (not_le.mpr hpos), if_pos hm]; rfl
  · rw [if_neg (not_le.mpr hpos), if_neg (by rw [hm]; exact fun h => by cases h)]

/-- A PER_TARGET record with accumulated state, used in the C3 witness. -/
def busyPerTargetRec : SavingsData :=
  { initialize_data with
    current_saved := 50
    total_deposits := 3
    saving_mode := SavingMode.PER_TARGET }

/-- An ACCUMULATE record with balance 50, used in witnesses. -/
def fiftyBalanceRec : SavingsData :=
  { initialize_data with current_saved := 50 }

theorem C3_set_new_target_spec_witness :
    set_new_target initialize_data (-2) = .error .InvalidAmount ∧
    set_new_target busyPerTargetRec 100 = .ok (freshPerTarget 100) ∧
    set_new_target fiftyBalanceRec 200 = .ok { fiftyBalanceRec with target := 200 } := by
  refine ⟨(C3_set_new_target_spec initialize_data (-2)).1 (by norm_num),
    (C3_set_new_target_spec busyPerTargetRec 100).2.1 (by norm_num) rfl,
    (C3_set_new_target_spec fiftyBalanceRec 200).2.2 (by norm_num) rfl⟩

/-- The record used to refute C4: balance 50 in ACCUMULATE mode with no
target set, so both invariants hold. -/
def lowTargetRec : SavingsData :=
  { target := 0
    current_saved := 50
    total_deposits := 1
    deposit_dates := []
    deposit_history := []
    saving_mode := SavingMode.ACCUMULATE }

/-- C4 counterexample: `set_new_target` in ACCUMULATE mode happily sets the
target below the current balance, breaking the invariant
`target == 0 ∨ currentSaved ≤ target`. -/
theorem C4_counterexample :
    recordInv lowTargetRec ∧
    set_new_target lowTargetRec 30 = .ok { lowTargetRec with target := 30 } ∧
    ¬ recordInv { lowTargetRec with target := 30 } := by
  refine ⟨by decide, rfl, by decide⟩

/-- C4 amended: every operation preserves `currentSaved ≥ 0`; deposit,
withdraw and reset also preserve the ACCUMULATE cap invariant; PER_TARGET
`setTarget` re-establishes both invariants; `setMode` to PER_TARGET
preserves them.  (ACCUMULATE `setTarget` can set the target below the
balance and `setMode` to ACCUMULATE can expose a balance above the target,
as the counterexample shows.) -/
theorem C4_amended (d d' : SavingsData) (amount newTarget : ℚ) (m : SavingMode)
    (dateOnly dtFull : String) :
    (deposit d amount dateOnly dtFull = .ok d' → recordInv d → recordInv d') ∧
    (withdraw d amount dtFull = .ok d' → recordInv d → recordInv d') ∧
    (set_new_target d newTarget = .ok d' → recordInv d →
      0 ≤ d'.current_saved ∧
        (d.saving_mode = SavingMode.PER_TARGET → recordInv d')) ∧
    (recordInv d → 0 ≤ (set_saving_mode d m).current_saved ∧
      (m = SavingMode.PER_TARGET → recordInv (set_saving_mode d m))) ∧
    recordInv (reset_progress d) := by
  refine ⟨?_, ?_, ?_, ?_, ?_⟩
  · intro h hinv
    unfold deposit at h
    by_cases h1 : amount ≤ 0
    · rw [if_pos h1] at h; cases h
    rw [if_neg h1] at h
    by_cases h2 : 0 < d.target ∧ d.target < d.current_saved + amount
    · rw [if_pos h2] at h; cases h
    rw [if_neg h2] at h
    cases h
    push_neg at h2
    have hamt : (0 : ℚ) < amount := lt_of_not_le h1
    constructor
    · dsimp only
      linarith [hinv.1]
    · intro hm
      dsimp only at hm ⊢
      rcases lt_or_le 0 d.target with ht | ht
      · exact Or.inr (h2 ht)
      · rcases hinv.2 hm with h0 | hle
        · exact Or.inl h0
        · exact Or.inl (le_antisymm ht (le_trans hinv.1 hle))
  · intro h hinv
    unfold withdraw at h
    by_cases h1 : amount ≤ 0
    · rw [if_pos h1] at h; cases h
    rw [if_neg h1] at h
    by_cases h2 : d.current_saved + -|amount| < 0
    · rw [if_pos h2] at h; cases h
    rw [if_neg h2] at h
    cases h
    push_neg at h2
    constructor
    · exact h2
    · intro hm
      dsimp only at hm ⊢
      rcases hinv.2 hm with h0 | hle
      · exact Or.inl h0
      · refine Or.inr ?_
        have habs : (0 : ℚ) ≤ |amount| := abs_nonneg amount
        linarith
  · intro h hinv
    unfold set_new_target at h
    by_cases h1 : newTarget ≤ 0
    · rw [if_pos h1] at h; cases h
    rw [if_neg h1] at h
    by_cases h2 : d.saving_mode = SavingMode.PER_TARGET
    · rw [if_pos h2] at h
      cases h
      exact ⟨le_refl 0, fun _ => ⟨le_refl 0, fun _ => Or.inr (le_of_lt (lt_of_not_le h1))⟩⟩
    · rw [if_neg h2] at h
      cases h
      exact ⟨hinv.1, fun hm => absurd hm h2⟩
  · intro hinv
    refine ⟨hinv.1, fun hm => ⟨hinv.1, fun hacc => ?_⟩⟩
    unfold set_saving_mode at hacc
    dsimp only at hacc
    rw [hm] at hacc
    cases hacc
  · exact ⟨le_refl 0, fun _ => Or.inl rfl⟩

theorem C4_amended_witness : recordInv afterDep5Rec := by
  have hdep : deposit initialize_data 5 "2026-10-12" "2026-10-12 09:00:00" =
      .ok afterDep5Rec := by
    norm_num [deposit, initialize_data, afterDep5Rec]
  exact (C4_amended initialize_data afterDep5Rec 5 1 SavingMode.ACCUMULATE
    "2026-10-12" "2026-10-12 09:00:00").1 hdep (by decide)

/-! ## The storage layer: `load_data` over parsed JSON

`load_data` (lines 131-157 of the source) normalizes the parsed JSON of
`data.json` inside a `try` whose `except` clause catches exactly
`json.JSONDecodeError`, `KeyError` and `TypeError`.  The embedding models
the parsed file as a `Json` tree and each Python primitive the function
uses (`in`, `data[k] = v`, `.get`, iteration, `record["date"]`,
`' ' in s`, `s.split()[0]`, `dict` key insertion) with its Python
semantics, including which exception each failure raises, so that the
catch-versus-propagate behaviour of the source is reproduced exactly. -/

/-- A JSON value as returned by `json.load`. -/
inductive Json where
  | null : Json
  | jbool : Bool → Json
  | num : ℚ → Json
  | str : String → Json
  | arr : List Json → Json
  | obj : List (String × Json) → Json

/-- An exception raised inside the `try` of `load_data`: `caught` stands
for the tuple `(json.JSONDecodeError, KeyError, TypeError)` of the
`except` clause, `uncaught` for anything else (`AttributeError`,
`IndexError`), which propagates out of `load_data`. -/
inductive PyExc where
  | caught : PyExc
  | uncaught : PyExc
deriving DecidableEq, Repr

/-- Whether `k` occurs as a substring of `s` (Python `k in s` for strings). -/
def strHasSubstr (k : List Char) : List Char → Bool
  | [] => k.isEmpty
  | c :: rest => k.isPrefixOf (c :: rest) || strHasSubstr k rest

/-- Python `k in data` for a string key `k`: key membership for dicts,
element equality for lists, substring test for strings, `TypeError` for
non-iterables. -/
def pyContainsKey (j : Json) (k : String) : Except PyExc Bool :=
  match j with
  | .obj fs => .ok (fs.any (fun p => p.1 == k))
  | .arr xs => .ok (xs.any (fun x => match x with | .str s => s == k | _ => false))
  | .str s => .ok (strHasSubstr k.data s.data)
  | _ => .error .caught

/-- Assignment into an association list: replace the first binding of `k`
in place, or append a new binding (Python dicts keep insertion order and
append new keys at the end). -/
def setKey : List (String × Json) → String → Json → List (String × Json)
  | [], k, v => [(k, v)]
  | (k', v') :: rest, k, v =>
    if k' = k then (k', v) :: rest else (k', v') :: setKey rest k v

/-- Python `data[k] = v`: only dicts support item assignment with a string
key; lists and strings raise `TypeError` (caught). -/
def pySetItem (j : Json) (k : String) (v : Json) : Except PyExc Json :=
  match j with
  | .obj fs => .ok (.obj (setKey fs k v))
  | _ => .error .caught

/-- First binding of `k` in an association list. -/
def getKey : List (String × Json) → String → Option Json
  | [], _ => none
  | (k', v') :: rest, k => if k' = k then some v' else getKey rest k

/-- Python `data.get(k, dflt)`: only dicts have `.get`; anything else
raises `AttributeError`, which the source does not catch. -/
def pyGetMethod (j : Json) (k : String) (dflt : Json) : Except PyExc Json :=
  match j with
  | .obj fs => .ok ((getKey fs k).getD dflt)
  | _ => .error .uncaught

/-- Python iteration `for record in hist`: lists yield elements, strings
yield one-character strings, dicts yield their keys, anything else raises
`TypeError` (caught). -/
def pyIterate (j : Json) : Except PyExc (List Json) :=
  match j with
  | .arr xs => .ok xs
  | .str s => .ok (s.data.map (fun c => .str (String.mk [c])))
  | .obj fs => .ok (fs.map (fun p => .str p.1))
  | _ => .error .caught

/-- Python `record["date"]`: dict lookup (`KeyError` when absent, caught);
indexing anything else with a string raises `TypeError` (caught). -/
def pyIndexStr (j : Json) (k : String) : Except PyExc Json :=
  match j with
  | .obj fs =>
    match getKey fs k with
    | some v => .ok v
    | none => .error .caught
  | _ => .error .caught

/-- Python `' ' in date_str`: substring test for strings, element test for
lists, key test for dicts, `TypeError` (caught) otherwise. -/
def pyContainsSpace (j : Json) : Except PyExc Bool :=
  match j with
  | .str s => .ok (s.data.any (fun c => c = ' '))
  | .arr xs => .ok (xs.any (fun x => match x with | .str s => s == " " | _ => false))
  | .obj fs => .ok (fs.any (fun p => p.1 == " "))
  | _ => .error .caught

/-- The whitespace characters `str.split()` splits on. -/
def pyIsSpace (c : Char) : Bool :=
  c = ' ' || c = '\t' || c = '\n' || c = '\r' || c = '\x0B' || c = '\x0C'

/-- Tokens of Python `s.split()`: maximal runs of non-whitespace, with the
current partial token accumulated in reverse. -/
def wsTokens : List Char → List Char → List (List Char)
  | [], cur => if cur.isEmpty then [] else [cur.reverse]
  | c :: rest, cur =>
    if pyIsSpace c then
      if cur.isEmpty then wsTokens rest [] else cur.reverse :: wsTokens rest []
    else wsTokens rest (c :: cur)

/-- Python `s.split()` (split on whitespace runs, dropping empties). -/
def pySplitWs (s : String) : List String := (wsTokens s.data []).map String.mk

/-- The body `date_str.split()[0] if ' ' in date_str else date_str` of the
date-reconstruction loop.  `split()[0]` on an all-whitespace string raises
`IndexError` (uncaught); `.split` on a non-string raises `AttributeError`
(uncaught). -/
def pyDatePart (dateStr : Json) : Except PyExc Json := do
  let hasSp ← pyContainsSpace dateStr
  if hasSp then
    match dateStr with
    | .str s =>
      match pySplitWs s with
      | [] => .error .uncaught
      | t :: _ => .ok (.str t)
    | _ => .error .uncaught
  else .ok dateStr

/-- Python hashability of a JSON value (lists and dicts are unhashable and
raise `TypeError`, caught, when used as dict keys). -/
def pyHashable : Json → Bool
  | .arr _ => false
  | .obj _ => false
  | _ => true

/-- Equality of hashable JSON values, as Python `==` compares dict keys
(structured values never reach a key position in `load_data`). -/
def jsonPrimEq : Json → Json → Bool
  | .null, .null => true
  | .jbool a, .jbool b => a == b
  | .num a, .num b => a == b
  | .str a, .str b => a == b
  | _, _ => false

/-- Statement `date_dict[date_part] = None`: ordered-dict key insertion, keeping the
first-occurrence order of keys. -/
def dictInsertKey (keys : List Json) (k : Json) : Except PyExc (List Json) :=
  if pyHashable k then
    .ok (if keys.any (fun x => jsonPrimEq x k) then keys else keys ++ [k])
  else .error .caught

/-- The `for record in data.get("deposit_history", [])` loop rebuilding
`date_dict`. -/
def datesFold : List Json → List Json → Except PyExc (List Json)
  | [], keys => .ok keys
  | record :: rest, keys => do
    let dateStr ← pyIndexStr record "date"
    let dp ← pyDatePart dateStr
    let keys' ← dictInsertKey keys dp
    datesFold rest keys'

/-- The `.value` strings of the `SavingMode` enum members. -/
def SavingMode.value : SavingMode → String
  | .ACCUMULATE => "累积存钱模式"
  | .PER_TARGET => "单目标存钱模式"

/-- The result of `initialize_data()` as the JSON object `json.dump` writes, with
its keys in the insertion order of the Python dict literal. -/
def initialize_json : List (String × Json) :=
  [("target", .num 0), ("current_saved", .num 0), ("total_deposits", .num 0),
   ("deposit_dates", .arr []), ("deposit_history", .arr []),
   ("saving_mode", .str (SavingMode.value .ACCUMULATE))]

/-- The `for key in initialized_data: if key not in data: data[key] = ...`
loop of `load_data`. -/
def fillDefaults : List (String × Json) → Json → Except PyExc Json
  | [], data => .ok data
  | (k, v) :: rest, data => do
    let present ← pyContainsKey data k
    let data' ← if present then pure data else pySetItem data k v
    fillDefaults rest data'

/-- The `try` body of `load_data` applied to the parsed JSON value. -/
def load_body (data : Json) : Except PyExc Json := do
  let data' ← fillDefaults initialize_json data
  let hist ← pyGetMethod data' "deposit_history" (.arr [])
  let records ← pyIterate hist
  let dates ← datesFold records []
  pySetItem data' "deposit_dates" (.arr dates)

/-- The `except (json.JSONDecodeError, KeyError, TypeError)` clause: a
caught exception yields `initialize_data()`, anything else propagates. -/
def load_catch (r : Except PyExc Json) : Except PyExc Json :=
  match r with
  | .ok d => .ok d
  | .error .caught => .ok (.obj initialize_json)
  | .error .uncaught => .error .uncaught

/-- Function `load_data`: a missing file or a JSON parse failure (`input = none`)
yields `initialize_data()`; otherwise the `try` body runs under the
`except` clause. -/
def load_data (input : Option Json) : Except PyExc Json :=
  match input with
  | none => .ok (.obj initialize_json)
  | some data => load_catch (load_body data)

/-- Serialization of a history entry as `json.dump` writes it. -/
def HistoryEntry.toJson (e : HistoryEntry) : Json :=
  .obj [("date", .str e.date), ("amount", .num e.amount),
        ("remaining", .num e.remaining)]

/-- The key/value pairs of a record as `save_data`'s `json.dump` writes
them, in the insertion order of the `SavingsData` dict. -/
def SavingsData.jsonFields (d : SavingsData) : List (String × Json) :=
  [("target", .num d.target), ("current_saved", .num d.current_saved),
   ("total_deposits", .num (d.total_deposits : ℚ)),
   ("deposit_dates", .arr (d.deposit_dates.map Json.str)),
   ("deposit_history", .arr (d.deposit_history.map HistoryEntry.toJson)),
   ("saving_mode", .str d.saving_mode.value)]

/-- Serialization of a record as `save_data`'s `json.dump` writes it. -/
def SavingsData.toJson (d : SavingsData) : Json :=
  .obj d.jsonFields

/-- The pure date-prefix function: everything before the first whitespace
when the string contains a space, the whole string otherwise. -/
def datePartOf (s : String) : String :=
  if s.data.any (fun c => c = ' ') then (pySplitWs s).headD "" else s

/-- A date string on which `load_data`'s reconstruction cannot raise: if it
contains a space it has at least one non-whitespace character. -/
def dateOk (s : String) : Prop :=
  s.data.any (fun c => c = ' ') = true → pySplitWs s ≠ []

instance (s : String) : Decidable (dateOk s) := by
  unfold dateOk; infer_instance

/-- Ordered-set insertion of a date (first-occurrence order, as Python
dict keys). -/
def insertDate (ks : List String) (s : String) : List String :=
  if s ∈ ks then ks else ks ++ [s]

/-- The set of distinct date prefixes of a ledger, in first-occurrence
order: the value `load_data` stores into `deposit_dates`. -/
def datesFromHistory (hist : List HistoryEntry) : List String :=
  hist.foldl (fun ks e => insertDate ks (datePartOf e.date)) []

/-- The pure counterpart of `fillDefaults` on a dict. -/
def fillKeys : List (String × Json) → List (String × Json) → List (String × Json)
  | [], fs => fs
  | (k, v) :: rest, fs =>
    fillKeys rest (if fs.any (fun p => p.1 == k) then fs else setKey fs k v)

/-! ### Helper lemmas about the storage primitives -/

theorem getKey_isSome_iff_any (fs : List (String × Json)) (k : String) :
    (fs.any (fun p => p.1 == k)) = true ↔ (getKey fs k).isSome := by
  induction fs with
  | nil => simp [getKey]
  | cons p rest ih =>
    obtain ⟨k', v'⟩ := p
    by_cases h : k' = k
    · simp [getKey, h]
    · simp [getKey, h, ih]

theorem getKey_setKey_self (fs : List (String × Json)) (k : String) (v : Json) :
    getKey (setKey fs k v) k = some v := by
  induction fs with
  | nil => simp [setKey, getKey]
  | cons p rest ih =>
    obtain ⟨k', v'⟩ := p
    by_cases h : k' = k
    · simp [setKey, getKey, h]
    · simp [setKey, getKey, h, ih]

theorem getKey_setKey_ne (fs : List (String × Json)) (k' k : String) (v : Json)
    (h : k' ≠ k) : getKey (setKey fs k' v) k = getKey fs k := by
  induction fs with
  | nil => simp [setKey, getKey, h]
  | cons p rest ih =>
    obtain ⟨k0, v0⟩ := p
    by_cases h0 : k0 = k'
    · subst h0
      simp [setKey, getKey, h]
    · by_cases h1 : k0 = k
      · subst h1
        simp [setKey, getKey, h0]
      · simp [setKey, getKey, h0, h1, ih]

theorem getKey_fillKeys (defaults : List (String × Json))
    (fs : List (String × Json)) (k : String) :
    getKey (fillKeys defaults fs) k =
      (getKey fs k).orElse (fun _ => getKey defaults k) := by
  induction defaults generalizing fs with
  | nil =>
    cases h : getKey fs k <;> simp [fillKeys, getKey, Option.orElse, h]
  | cons p rest ih =>
    obtain ⟨k0, v0⟩ := p
    by_cases hp : fs.any (fun q => q.1 == k0) = true
    · have : fillKeys ((k0, v0) :: rest) fs = fillKeys rest fs := by
        simp [fillKeys, hp]
      rw [this, ih]
      by_cases hk : k0 = k
      · subst hk
        have hs : (getKey fs k0).isSome := (getKey_isSome_iff_any fs k0).mp hp
        cases hg : getKey fs k0 with
        | none => rw [hg] at hs; cases hs
        | some v => simp [Option.orElse, hg]
      · simp [getKey, hk]
    · have : fillKeys ((k0, v0) :: rest) fs = fillKeys rest (setKey fs k0 v0) := by
        simp [fillKeys, hp]
      rw [this, ih]
      by_cases hk : k0 = k
      · subst hk
        have hnone : getKey fs k0 = none := by
          cases hg : getKey fs k0 with
          | none => rfl
          | some v =>
            exact absurd ((getKey_isSome_iff_any fs k0).mpr (by simp [hg])) hp
        rw [getKey_setKey_self]
        simp [Option.orElse, hnone, getKey]
      · rw [getKey_setKey_ne fs k0 k v0 hk]
        simp [getKey, hk]

theorem fillDefaults_obj (defaults : List (String × Json))
    (fs : List (String × Json)) :
    fillDefaults defaults (.obj fs) = .ok (.obj (fillKeys defaults fs)) := by
  induction defaults generalizing fs with
  | nil => rfl
  | cons p rest ih =>
    obtain ⟨k, v⟩ := p
    cases hp : fs.any (fun q => q.1 == k) with
    | true =>
      have h1 : fillDefaults ((k, v) :: rest) (.obj fs) =
          fillDefaults rest (.obj fs) := by
        simp [fillDefaults, pyContainsKey, pySetItem, hp, Bind.bind, Except.bind,
          pure, Except.pure]
      rw [h1, ih]
      simp [fillKeys, hp]
    | false =>
      have h1 : fillDefaults ((k, v) :: rest) (.obj fs) =
          fillDefaults rest (.obj (setKey fs k v)) := by
        simp [fillDefaults, pyContainsKey, pySetItem, hp, Bind.bind, Except.bind]
      rw [h1, ih]
      simp [fillKeys, hp]

theorem pyDatePart_str (s : String) (h : dateOk s) :
    pyDatePart (.str s) = .ok (.str (datePartOf s)) := by
  unfold pyDatePart pyContainsSpace datePartOf
  cases hs : s.data.any (fun c => c = ' ') with
  | false => simp [Bind.bind, Except.bind, hs]
  | true =>
    have hne := h hs
    cases hsp : pySplitWs s with
    | nil => exact absurd hsp hne
    | cons t ts => simp [Bind.bind, Except.bind, hs, hsp]

theorem strAny_primEq (acc : List String) (s : String) :
    (acc.map Json.str).any (fun x => jsonPrimEq x (.str s)) = decide (s ∈ acc) := by
  induction acc with
  | nil => simp
  | cons a rest ih =>
    simp only [List.map_cons, List.any_cons, ih]
    have hj : jsonPrimEq (Json.str a) (Json.str s) = (a == s) := rfl
    rw [hj]
    by_cases h : a = s
    · subst h; simp
    · have h2 : s ≠ a := fun hh => h hh.symm
      simp [h, h2, List.mem_cons]

theorem dictInsertKey_str (acc : List String) (s : String) :
    dictInsertKey (acc.map Json.str) (.str s) =
      .ok ((insertDate acc s).map Json.str) := by
  unfold dictInsertKey insertDate
  rw [strAny_primEq]
  by_cases hm : s ∈ acc
  · simp [pyHashable, hm]
  · simp [pyHashable, hm]

theorem datesFold_entries (es : List HistoryEntry) (acc : List String)
    (h : ∀ e ∈ es, dateOk e.date) :
    datesFold (es.map HistoryEntry.toJson) (acc.map Json.str) =
      .ok ((es.foldl (fun ks e => insertDate ks (datePartOf e.date)) acc).map
        Json.str) := by
  induction es generalizing acc with
  | nil => simp [datesFold]
  | cons e rest ih =>
    have hd : dateOk e.date := h e (by simp)
    have hrest : ∀ x ∈ rest, dateOk x.date := fun x hx => h x (by simp [hx])
    have h1 : pyIndexStr e.toJson "date" = .ok (.str e.date) := rfl
    simp only [List.map_cons, datesFold, h1, Bind.bind, Except.bind,
      pyDatePart_str e.date hd, dictInsertKey_str]
    exact ih (insertDate acc (datePartOf e.date)) hrest

theorem load_body_obj (fields : List (String × Json)) (es : List HistoryEntry)
    (hhist : getKey (fillKeys initialize_json fields) "deposit_history" =
      some (.arr (es.map HistoryEntry.toJson)))
    (hok : ∀ e ∈ es, dateOk e.date) :
    load_body (.obj fields) =
      .ok (.obj (setKey (fillKeys initialize_json fields) "deposit_dates"
        (.arr ((datesFromHistory es).map Json.str)))) := by
  unfold load_body
  rw [fillDefaults_obj]
  have hd := datesFold_entries es [] hok
  simp only [List.map_nil] at hd
  simp only [Bind.bind, Except.bind, pyGetMethod, hhist, Option.getD,
    pyIterate, hd, pySetItem]
  rfl

theorem fillKeys_jsonFields (d : SavingsData) :
    fillKeys initialize_json d.jsonFields = d.jsonFields := rfl

theorem load_data_toJson (d : SavingsData)
    (h : ∀ e ∈ d.deposit_history, dateOk e.date) :
    load_data (some d.toJson) =
      .ok (SavingsData.toJson
        { d with deposit_dates := datesFromHistory d.deposit_history }) := by
  have hb := load_body_obj d.jsonFields d.deposit_history
    (by rw [fillKeys_jsonFields]; rfl) h
  have h1 : load_data (some d.toJson) = load_catch (load_body (.obj d.jsonFields)) := rfl
  rw [h1, hb]
  rfl

theorem mem_insertDate (x s : String) (ks : List String) :
    x ∈ insertDate ks s ↔ x ∈ ks ∨ x = s := by
  by_cases h : s ∈ ks
  · simp only [insertDate, if_pos h]
    exact ⟨Or.inl, fun hx => hx.elim id (fun he => he ▸ h)⟩
  · simp [insertDate, h]

theorem nodup_insertDate (s : String) (ks : List String) (h : ks.Nodup) :
    (insertDate ks s).Nodup := by
  by_cases hm : s ∈ ks
  · simpa [insertDate, hm] using h
  · simp [insertDate, hm, h, List.nodup_append]

theorem mem_foldl_insertDate (l : List String) (acc : List String) (x : String) :
    x ∈ l.foldl insertDate acc ↔ x ∈ acc ∨ x ∈ l := by
  induction l generalizing acc with
  | nil => simp
  | cons a rest ih =>
    simp only [List.foldl_cons, ih, mem_insertDate, List.mem_cons]
    tauto

theorem nodup_foldl_insertDate (l : List String) (acc : List String)
    (h : acc.Nodup) : (l.foldl insertDate acc).Nodup := by
  induction l generalizing acc with
  | nil => simpa
  | cons a rest ih => exact ih _ (nodup_insertDate a acc h)

theorem datesFromHistory_eq_foldl (hist : List HistoryEntry) :
    datesFromHistory hist =
      (hist.map (fun e => datePartOf e.date)).foldl insertDate [] := by
  unfold datesFromHistory
  rw [List.foldl_map]

theorem mem_datesFromHistory (hist : List HistoryEntry) (x : String) :
    x ∈ datesFromHistory hist ↔
      x ∈ hist.map (fun e => datePartOf e.date) := by
  rw [datesFromHistory_eq_foldl, mem_foldl_insertDate]
  simp

theorem datesFromHistory_nodup (hist : List HistoryEntry) :
    (datesFromHistory hist).Nodup := by
  rw [datesFromHistory_eq_foldl]
  exact nodup_foldl_insertDate _ _ List.nodup_nil

theorem datesFromHistory_toFinset (hist : List HistoryEntry) :
    (datesFromHistory hist).toFinset =
      (hist.map (fun e => datePartOf e.date)).toFinset := by
  ext x
  simp [List.mem_toFinset, mem_datesFromHistory]

theorem load_data_obj_normal (fields : List (String × Json))
    (es : List HistoryEntry)
    (hhist : getKey (fillKeys initialize_json fields) "deposit_history" =
      some (.arr (es.map HistoryEntry.toJson)))
    (hok : ∀ e ∈ es, dateOk e.date) :
    load_data (some (.obj fields)) =
      .ok (.obj (setKey (fillKeys initialize_json fields) "deposit_dates"
        (.arr ((datesFromHistory es).map Json.str)))) := by
  have h1 : load_data (some (.obj fields)) =
      load_catch (load_body (.obj fields)) := rfl
  rw [h1, load_body_obj fields es hhist hok]
  rfl

/-- A stored file whose history contains an entry whose date is a single
space: `" ".split()` is empty, so `split()[0]` raises `IndexError`, which
the `except` clause of `load_data` does not catch. -/
def crashingStored : Json :=
  .obj [("deposit_history", .arr [.obj [("date", .str " ")]])]

/-- C5 counterexample: `load_data` propagates an uncaught exception on a
parseable record file (history date `" "` raises `IndexError`), so load
does not always yield a record. -/
theorem C5_counterexample : load_data (some crashingStored) = .error .uncaught := rfl

/-- C5 amended: a missing or unparseable file loads as the default record,
and a file missing all keys loads as exactly the default record with mode
ACCUMULATE; for an object file whose `deposit_history`, when present, is a
well-formed entry list, load returns without error the stored object with
`deposit_dates` recomputed, and every other key is kept when present (even
wrong-typed) and filled from the defaults when missing — a wrong-typed
present field does *not* reset the record, and pathological date values
raise an uncaught error (see the counterexample). -/
theorem C5_amended (fields : List (String × Json)) (es : List HistoryEntry)
    (_hnd : (fields.map Prod.fst).Nodup)
    (hhist : getKey fields "deposit_history" =
        some (.arr (es.map HistoryEntry.toJson)) ∨
      (getKey fields "deposit_history" = none ∧ es = []))
    (hok : ∀ e ∈ es, dateOk e.date) :
    load_data none = .ok (.obj initialize_json) ∧
    load_data (some (.obj [])) = .ok (.obj initialize_json) ∧
    load_data (some (.obj fields)) =
      .ok (.obj (setKey (fillKeys initialize_json fields) "deposit_dates"
        (.arr ((datesFromHistory es).map Json.str)))) ∧
    (∀ k, k ≠ "deposit_dates" →
      getKey (setKey (fillKeys initialize_json fields) "deposit_dates"
          (.arr ((datesFromHistory es).map Json.str))) k =
        (getKey fields k).orElse (fun _ => getKey initialize_json k)) := by
  have hhist' : getKey (fillKeys initialize_json fields) "deposit_history" =
      some (.arr (es.map HistoryEntry.toJson)) := by
    rw [getKey_fillKeys]
    rcases hhist with h | ⟨h, he⟩
    · rw [h]; rfl
    · subst he; rw [h]; rfl
  refine ⟨rfl, rfl, load_data_obj_normal fields es hhist' hok, fun k hk => ?_⟩
  rw [getKey_setKey_ne _ _ _ _ (fun hh => hk hh.symm), getKey_fillKeys]

theorem C5_amended_witness :
    load_data (some (.obj [("current_saved", Json.str "abc")])) =
      .ok (.obj (setKey (fillKeys initialize_json
          [("current_saved", Json.str "abc")]) "deposit_dates"
        (.arr ((datesFromHistory []).map Json.str)))) ∧
    getKey (setKey (fillKeys initialize_json
          [("current_saved", Json.str "abc")]) "deposit_dates"
        (.arr ((datesFromHistory []).map Json.str))) "current_saved" =
      (getKey [("current_saved", Json.str "abc")] "current_saved").orElse
        (fun _ => getKey initialize_json "current_saved") := by
  have h := C5_amended [("current_saved", Json.str "abc")] []
    (by decide) (Or.inr ⟨rfl, rfl⟩) (by intro e he; cases he)
  exact ⟨h.2.2.1, h.2.2.2 "current_saved" (by decide)⟩

/-- C6: for every well-formed stored record, the `deposit_dates` produced
by load is the deduplicated first-occurrence list of the date prefixes of
the stored ledger timestamps — the stored `deposit_dates` value (anything
at all, inside `fields`) is discarded and recomputed. -/
theorem C6_dates_recomputed (fields : List (String × Json))
    (es : List HistoryEntry)
    (_hnd : (fields.map Prod.fst).Nodup)
    (hhist : getKey fields "deposit_history" =
      some (.arr (es.map HistoryEntry.toJson)))
    (hok : ∀ e ∈ es, dateOk e.date) :
    load_data (some (.obj fields)) =
      .ok (.obj (setKey (fillKeys initialize_json fields) "deposit_dates"
        (.arr ((datesFromHistory es).map Json.str)))) ∧
    getKey (setKey (fillKeys initialize_json fields) "deposit_dates"
        (.arr ((datesFromHistory es).map Json.str))) "deposit_dates" =
      some (.arr ((datesFromHistory es).map Json.str)) ∧
    (datesFromHistory es).toFinset =
      (es.map (fun e => datePartOf e.date)).toFinset ∧
    (datesFromHistory es).Nodup := by
  have hhist' : getKey (fillKeys initialize_json fields) "deposit_history" =
      some (.arr (es.map HistoryEntry.toJson)) := by
    rw [getKey_fillKeys, hhist]; rfl
  exact ⟨load_data_obj_normal fields es hhist' hok,
    getKey_setKey_self _ _ _,
    datesFromHistory_toFinset es,
    datesFromHistory_nodup es⟩

/-- The ledger used in the C6 witness: two entries on the same calendar
day. -/
def twoSameDayEntries : List HistoryEntry :=
  [{ date := "2026-10-11 09:00:00", amount := 3, remaining := -3 },
   { date := "2026-10-11 10:00:00", amount := 2, remaining := -5 }]

/-- The stored file used in the C6 witness: garbage in `deposit_dates`,
two same-day ledger entries. -/
def garbageDatesStored : List (String × Json) :=
  [("deposit_dates", .arr [.str "junk", .num 7]),
   ("deposit_history", .arr (twoSameDayEntries.map HistoryEntry.toJson))]

theorem C6_dates_recomputed_witness :
    load_data (some (.obj garbageDatesStored)) =
      .ok (.obj (setKey (fillKeys initialize_json garbageDatesStored)
        "deposit_dates"
        (.arr ((datesFromHistory twoSameDayEntries).map Json.str)))) ∧
    datesFromHistory twoSameDayEntries = ["2026-10-11"] := by
  have h := C6_dates_recomputed garbageDatesStored twoSameDayEntries
    (by decide) rfl (by decide)
  exact ⟨h.1, by decide⟩

/-- A reachable record (deposit of 3 on 2026-10-11, withdrawal of 1 on
2026-10-12) whose in-memory `deposit_dates` misses the withdrawal-only
day. -/
def staleDatesRec : SavingsData :=
  { initialize_data with
    current_saved := 2
    total_deposits := 1
    deposit_dates := ["2026-10-11"]
    deposit_history :=
      [{ date := "2026-10-11 09:00:00", amount := 3, remaining := -3 },
       { date := "2026-10-12 10:00:00", amount := -1, remaining := -2 }] }

/-- C7 counterexample: saving `staleDatesRec` and loading it back yields
`deposit_dates = ["2026-10-11", "2026-10-12"]`, which does *not* match the
saved record's `deposit_dates = ["2026-10-11"]` — the recomputed dates need
not match the stored ones. -/
theorem C7_counterexample :
    load_data (some staleDatesRec.toJson) =
      .ok (SavingsData.toJson
        { staleDatesRec with deposit_dates := ["2026-10-11", "2026-10-12"] }) ∧
    (["2026-10-11", "2026-10-12"] : List String) ≠ staleDatesRec.deposit_dates :=
  ⟨rfl, by decide⟩

/-- C7 amended: loading immediately after saving yields the saved record
with `deposit_dates` replaced by the recomputation from the ledger; when
the saved `deposit_dates` already equals that recomputation, the round
trip is the identity. -/
theorem C7_amended (d : SavingsData)
    (h : ∀ e ∈ d.deposit_history, dateOk e.date) :
    load_data (some d.toJson) =
      .ok (SavingsData.toJson
        { d with deposit_dates := datesFromHistory d.deposit_history }) ∧
    (d.deposit_dates = datesFromHistory d.deposit_history →
      load_data (some d.toJson) = .ok d.toJson) := by
  refine ⟨load_data_toJson d h, fun hd => ?_⟩
  rw [load_data_toJson d h, ← hd]

theorem C7_amended_witness :
    load_data (some afterDep5Rec.toJson) = .ok afterDep5Rec.toJson :=
  (C7_amended afterDep5Rec (by decide)).2 (by decide)

/-- C10: a successful withdrawal leaves the in-memory `deposit_dates`
exactly unchanged, while the date prefix of the withdrawal timestamp does
appear in the dates recomputed from the ledger — hence it appears in
`deposit_dates` after the record is saved and next loaded. -/
theorem C10_withdraw_dates_frame (d : SavingsData) (amount : ℚ)
    (dtFull : String) (d' : SavingsData)
    (h : withdraw d amount dtFull = .ok d')
    (hgood : ∀ e ∈ d.deposit_history, dateOk e.date) (hdt : dateOk dtFull) :
    d'.deposit_dates = d.deposit_dates ∧
    datePartOf dtFull ∈ datesFromHistory d'.deposit_history ∧
    load_data (some d'.toJson) =
      .ok (SavingsData.toJson
        { d' with deposit_dates := datesFromHistory d'.deposit_history }) := by
  unfold withdraw at h
  by_cases h1 : amount ≤ 0
  · rw [if_pos h1] at h; cases h
  rw [if_neg h1] at h
  by_cases h2 : d.current_saved + -|amount| < 0
  · rw [if_pos h2] at h; cases h
  rw [if_neg h2] at h
  cases h
  refine ⟨rfl, ?_, ?_⟩
  · rw [mem_datesFromHistory]
    exact List.mem_map_of_mem _
      (List.mem_append_right _ (List.mem_singleton.mpr rfl))
  · apply load_data_toJson
    intro e he
    dsimp only at he
    rcases List.mem_append.mp he with he | he
    · exact hgood e he
    · rw [List.mem_singleton] at he
      subst he
      exact hdt

theorem C10_withdraw_dates_frame_witness :
    afterWd3Rec.deposit_dates = tenBalanceRec.deposit_dates ∧
    datePartOf "2026-10-12 09:00:00" ∈ datesFromHistory afterWd3Rec.deposit_history := by
  have hwd : withdraw tenBalanceRec 3 "2026-10-12 09:00:00" = .ok afterWd3Rec := by
    norm_num [withdraw, tenBalanceRec, initialize_data, afterWd3Rec, abs_of_pos]
  have h := C10_withdraw_dates_frame tenBalanceRec 3 "2026-10-12 09:00:00"
    afterWd3Rec hwd (by decide) (by decide)
  exact ⟨h.1, h.2.1⟩

/-! ## Backup rotation (`save_data`, lines 159-190) and account creation
(`create_piggy_bank`, lines 200-220) -/

/-- One backup file in an account's backup directory, identified by its
filename and its modification time. -/
structure BackupFile where
  name : String
  mtime : ℕ
deriving DecidableEq, Repr

/-- The rotation block of `save_data`: when more than 5 backups exist, sort
by mtime and remove all but the newest 5, keeping any file whose removal
fails (`except OSError: pass`).  The directory is a set of files; the list
order carries no meaning. -/
def rotate_backups (files : List BackupFile) (removeOk : String → Bool) :
    List BackupFile :=
  if 5 < files.length then
    let sorted := List.insertionSort (fun a b => a.mtime ≤ b.mtime) files
    sorted.drop (sorted.length - 5) ++
      (sorted.take (sorted.length - 5)).filter (fun f => ! removeOk f.name)
  else files

/-- One `save_data` call as it affects the backup directory: the new backup
file is written, rotation runs, and the function returns `True` no matter
what the rotation removals did. -/
def save_backup_step (state : List BackupFile) (b : BackupFile)
    (removeOk : String → Bool) : List BackupFile × Bool :=
  (rotate_backups (state ++ [b]) removeOk, true)

/-- The backup directory after a sequence of saves starting from an empty
directory. -/
def run_saves (bs : List BackupFile) (removeOk : String → Bool) :
    List BackupFile :=
  bs.foldl (fun st b => (save_backup_step st b removeOk).1) []

theorem rotate_sorted (l : List BackupFile)
    (h : List.Pairwise (fun a b => a.mtime < b.mtime) l) :
    rotate_backups l (fun _ => true) = l.drop (l.length - 5) := by
  unfold rotate_backups
  by_cases h5 : 5 < l.length
  · rw [if_pos h5]
    have hs : List.insertionSort (fun a b => a.mtime ≤ b.mtime) l = l :=
      List.Sorted.insertionSort_eq (by exact h.imp fun hh => le_of_lt hh)
    rw [hs]
    simp
  · rw [if_neg h5]
    have h0 : l.length - 5 = 0 := by omega
    rw [h0, List.drop_zero]

theorem run_saves_general (bs : List BackupFile) (d0 : List BackupFile)
    (hlen : d0.length ≤ 5)
    (hp : List.Pairwise (fun a b => a.mtime < b.mtime) (d0 ++ bs)) :
    bs.foldl (fun st b => (save_backup_step st b (fun _ => true)).1) d0 =
      (d0 ++ bs).drop (d0.length + bs.length - 5) := by
  induction bs generalizing d0 with
  | nil =>
    simp only [List.foldl_nil, List.append_nil, List.length_nil, Nat.add_zero]
    have h0 : d0.length - 5 = 0 := by omega
    rw [h0, List.drop_zero]
  | cons b rest ih =>
    simp only [List.foldl_cons]
    have hstep : (save_backup_step d0 b (fun _ => true)).1 =
        rotate_backups (d0 ++ [b]) (fun _ => true) := rfl
    rw [hstep]
    have hsort : List.Pairwise (fun a b => a.mtime < b.mtime) (d0 ++ [b]) :=
      hp.sublist ((List.Sublist.cons₂ b (List.nil_sublist rest)).append_left d0)
    rw [rotate_sorted (d0 ++ [b]) hsort]
    by_cases h5 : d0.length = 5
    · cases d0 with
      | nil => simp at h5
      | cons x d0t =>
        have hlt : (x :: d0t ++ [b]).length - 5 = 1 := by
          simp only [List.length_append, List.length_cons, List.length_nil] at h5 ⊢
          omega
        rw [hlt]
        have hd1 : (x :: d0t ++ [b]).drop 1 = d0t ++ [b] := rfl
        rw [hd1]
        have hlen' : (d0t ++ [b]).length ≤ 5 := by
          simp only [List.length_append, List.length_cons, List.length_nil] at h5 ⊢
          omega
        have hp' : List.Pairwise (fun a b => a.mtime < b.mtime)
            ((d0t ++ [b]) ++ rest) := by
          have htail : List.Pairwise (fun a b => a.mtime < b.mtime)
              (d0t ++ b :: rest) := by
            have := hp.sublist (List.sublist_cons_self x (d0t ++ b :: rest))
            simpa using this
          simpa [List.append_assoc] using htail
        rw [ih (d0t ++ [b]) hlen' hp']
        have harr : (d0t ++ [b]) ++ rest = d0t ++ b :: rest := by
          simp [List.append_assoc]
        rw [harr]
        have hidx : (d0t ++ [b]).length + rest.length - 5 =
            (x :: d0t).length + (b :: rest).length - 5 - 1 := by
          simp only [List.length_append, List.length_cons, List.length_nil] at h5 ⊢
          omega
        rw [hidx]
        have hconsapp : (x :: d0t) ++ b :: rest = x :: (d0t ++ b :: rest) := rfl
        rw [hconsapp]
        have hpos : 1 ≤ (x :: d0t).length + (b :: rest).length - 5 := by
          simp only [List.length_cons] at h5 ⊢
          omega
        rw [show ((x :: d0t).length + (b :: rest).length - 5) =
          ((x :: d0t).length + (b :: rest).length - 5 - 1) + 1 from by omega]
        rw [List.drop_succ_cons]
        simp
    · have hlen1 : (d0 ++ [b]).length ≤ 5 := by
        simp only [List.length_append, List.length_singleton]
        omega
      have hz : (d0 ++ [b]).length - 5 = 0 := by
        simp only [List.length_append, List.length_cons, List.length_nil] at hlen1 ⊢
        omega
      rw [hz, List.drop_zero]
      have hp' : List.Pairwise (fun a b => a.mtime < b.mtime)
          ((d0 ++ [b]) ++ rest) := by
        simpa [List.append_assoc] using hp
      rw [ih (d0 ++ [b]) hlen1 hp']
      have harr : (d0 ++ [b]) ++ rest = d0 ++ b :: rest := by
        simp [List.append_assoc]
      rw [harr]
      have hidx : (d0 ++ [b]).length + rest.length - 5 =
          d0.length + (b :: rest).length - 5 := by
        simp only [List.length_append, List.length_cons, List.length_nil]
        omega
      rw [hidx]

/-- C8: starting from an empty backup directory, after more than 5 saves
with strictly increasing backup mtimes in which all rotation removals
succeed, exactly 5 backup files remain and they are the 5 most recently
modified (every survivor is newer than every removed file); and a save
step reports success no matter which removals fail. -/
theorem C8_backup_rotation (bs : List BackupFile)
    (hmono : List.Pairwise (fun a b => a.mtime < b.mtime) bs)
    (hn : 5 < bs.length) :
    run_saves bs (fun _ => true) = bs.drop (bs.length - 5) ∧
    (run_saves bs (fun _ => true)).length = 5 ∧
    (∀ f ∈ run_saves bs (fun _ => true), ∀ g ∈ bs,
      g ∉ run_saves bs (fun _ => true) → g.mtime < f.mtime) ∧
    ∀ st b removeOk, (save_backup_step st b removeOk).2 = true := by
  have hrun : run_saves bs (fun _ => true) = bs.drop (bs.length - 5) := by
    have h := run_saves_general bs [] (by simp) (by simpa using hmono)
    simpa using h
  refine ⟨hrun, ?_, ?_, fun _ _ _ => rfl⟩
  · rw [hrun, List.length_drop]
    omega
  · intro f hf g hg hgn
    rw [hrun] at hf hgn
    have hsplit := List.take_append_drop (bs.length - 5) bs
    have hgtake : g ∈ bs.take (bs.length - 5) := by
      have hg2 : g ∈ bs.take (bs.length - 5) ++ bs.drop (bs.length - 5) := by
        rw [hsplit]; exact hg
      rcases List.mem_append.mp hg2 with h | h
      · exact h
      · exact absurd h hgn
    have hpw : List.Pairwise (fun a b => a.mtime < b.mtime)
        (bs.take (bs.length - 5) ++ bs.drop (bs.length - 5)) := by
      rw [hsplit]; exact hmono
    exact (List.pairwise_append.mp hpw).2.2 g hgtake f hf

/-- Six backup files with increasing mtimes, used in the C8 witness. -/
def sixBackups : List BackupFile :=
  [{ name := "b1", mtime := 1 }, { name := "b2", mtime := 2 },
   { name := "b3", mtime := 3 }, { name := "b4", mtime := 4 },
   { name := "b5", mtime := 5 }, { name := "b6", mtime := 6 }]

theorem C8_backup_rotation_witness :
    run_saves sixBackups (fun _ => true) =
      [{ name := "b2", mtime := 2 }, { name := "b3", mtime := 3 },
       { name := "b4", mtime := 4 }, { name := "b5", mtime := 5 },
       { name := "b6", mtime := 6 }] ∧
    (run_saves sixBackups (fun _ => true)).length = 5 := by
  have h := C8_backup_rotation sixBackups (by decide) (by decide)
  exact ⟨by rw [h.1]; rfl, h.2.1⟩

/-- The characters the source rejects in account names
(`re.search` over the class `[\\/*?:"<>|]`). -/
def reserved_chars : List Char := ['\\', '/', '*', '?', ':', '"', '<', '>', '|']

/-- The two failure modes of account creation.  The source collapses both
to `return None`; the embedding labels each early-return branch with the
error name the spec gives it. -/
inductive CreateError where
  | InvalidName : CreateError
  | AlreadyExists : CreateError
deriving DecidableEq, Repr

/-- Function `create_piggy_bank`, lines 200-220.  `existing` is the set of directory
names under the data root; the `OSError` branch (directory creation itself
failing) is outside the model.  On success the source writes
`initialize_data()` to the new account's data file and returns the name
unchanged; the embedding returns both. -/
def create_piggy_bank (existing : List String) (name : String) :
    Except CreateError (String × SavingsData) :=
  if name = "" then .error .InvalidName
  else if name.data.any (fun c => reserved_chars.contains c) then
    .error .InvalidName
  else if name ∈ existing then .error .AlreadyExists
  else .ok (name, initialize_data)

/-- C9: creation fails with `InvalidName` for the empty name and for any
name containing a reserved character; it fails with `AlreadyExists` for a
valid name whose directory exists; otherwise it creates the account with a
fresh default record and returns the canonical (unchanged) name. -/
theorem C9_create_spec (existing : List String) (name : String) :
    ((name = "" ∨ name.data.any (fun c => reserved_chars.contains c) = true) →
      create_piggy_bank existing name = .error .InvalidName) ∧
    (name ≠ "" → name.data.any (fun c => reserved_chars.contains c) = false →
      name ∈ existing →
      create_piggy_bank existing name = .error .AlreadyExists) ∧
    (name ≠ "" → name.data.any (fun c => reserved_chars.contains c) = false →
      name ∉ existing →
      create_piggy_bank existing name = .ok (name, initialize_data)) := by
  unfold create_piggy_bank
  refine ⟨?_, ?_, ?_⟩
  · rintro (h | h)
    · rw [if_pos h]
    · by_cases h0 : name = ""
      · rw [if_pos h0]
      · rw [if_neg h0, if_pos h]
  · intro h0 h1 h2
    have hno : ¬ ((name.data.any fun c => reserved_chars.contains c) = true) := by
      rw [h1]; exact Bool.false_ne_true
    rw [if_neg h0, if_neg hno, if_pos h2]
  · intro h0 h1 h2
    have hno : ¬ ((name.data.any fun c => reserved_chars.contains c) = true) := by
      rw [h1]; exact Bool.false_ne_true
    rw [if_neg h0, if_neg hno, if_neg h2]

theorem C9_create_spec_witness :
    create_piggy_bank [] "a/b" = .error .InvalidName ∧
    create_piggy_bank [] "savings" = .ok ("savings", initialize_data) ∧
    create_piggy_bank ["savings"] "savings" = .error .AlreadyExists := by
  refine ⟨(C9_create_spec [] "a/b").1 (Or.inr (by decide)),
    (C9_create_spec [] "savings").2.2 (by decide) (by decide) (by decide),
    (C9_create_spec ["savings"] "savings").2.1 (by decide) (by decide)
      (by decide)⟩
